import Mathlib

/-!
Verification development for the `envtree` repository.

The TypeScript sources are shallowly embedded as pure Lean functions:

* An absolute, normalized filesystem path is a list of components from the
  filesystem root downward; `[]` is the filesystem root itself.  `path.dirname`
  is `List.dropLast` (the dirname of the root is the root), `path.join dir s`
  appends the components of `s` (split on the slash character, as `path.join`
  does for relative arguments without `.`/`..` segments), `path.basename` is
  the last component, and `path.resolve` is the identity on these
  already-absolute paths.  `dir.startsWith(root)` on path strings is the
  component-wise leading-segment test `isLeadOf root dir`; for the ancestor
  chains these functions are applied to, the two coincide.
* The filesystem is an explicit value: a list of regular files (with the
  outcomes each reader extracts from their bytes) and a list of directories.
  Reading a file models each reader of the source separately: the regular
  expression test applied to a rust manifest, the structured-config (JSON)
  parse, and the dotenv parse; `none` means that reading or parsing throws.
* The live process environment is an explicit association list threaded
  through `loadEnvTree`.
-/

/-- A path component list: `[]` is the filesystem root. -/
abbrev AbsPath := List String

/-- The live process environment, as an association list. -/
abbrev Env := List (String × String)

/-- Leading-segment test on lists: `isLeadOf root p` holds when `root` is an
initial segment of `p` (ancestor-or-self on paths). -/
def isLeadOf : AbsPath → AbsPath → Bool
  | [], _ => true
  | _ :: _, [] => false
  | a :: as, b :: bs => a == b && isLeadOf as bs

/-- Leading-segment test on character lists. -/
def leadChars : List Char → List Char → Bool
  | [], _ => true
  | _ :: _, [] => false
  | a :: as, b :: bs => a == b && leadChars as bs

/-- `s.startsWith lead` on strings (used for the `.env` name filter and for
the key filter). -/
def strBegins (s lead : String) : Bool :=
  leadChars lead.data s.data

/-- Split a relative path string on slashes into components
(for `path.join(dir, rel)` with plain relative arguments). -/
def splitSlashGo : List Char → List Char → List String
  | [], acc => [String.mk acc.reverse]
  | c :: cs, acc =>
    if c = '/' then String.mk acc.reverse :: splitSlashGo cs []
    else splitSlashGo cs (c :: acc)

/-- `path.join(dir, rel)` for a relative `rel` without `.`/`..` segments. -/
def pathJoin (dir : AbsPath) (rel : String) : AbsPath :=
  dir ++ splitSlashGo rel.data []

/-- `path.basename`: the last component (empty for the filesystem root). -/
def basename (p : AbsPath) : String :=
  (p.getLast?).getD ""

/-- Outcome of a structured-config (JSON) parse of a file: the truthiness of
the fields the source inspects. -/
structure JsonObj where
  workspaces : Bool
  workspace : Bool
  folders : Bool
  workspaceFolders : Bool
deriving DecidableEq

/-- What each reader of the source extracts from one regular file's bytes.
`none` everywhere a read or parse throws. -/
structure FileData where
  /-- the rust-manifest regular-expression test `[workspace]` on the raw text
  (`none`: the read itself throws) -/
  cargo : Option Bool
  /-- the structured-config parse (`none`: the read or the parse throws) -/
  json : Option JsonObj
  /-- the dotenv parse (`none`: the read or the parse throws) -/
  dotenv : Option (List (String × String))
deriving DecidableEq

/-- A filesystem snapshot: regular files with their reader outcomes, and the
set of directories. -/
structure FS where
  files : List (AbsPath × FileData)
  dirs : List AbsPath
deriving DecidableEq

/-- The regular file at `p`, if any. -/
def lookupFile (fs : FS) (p : AbsPath) : Option FileData :=
  (fs.files.find? (fun e => e.1 == p)).map (fun e => e.2)

/-- `fs.accessSync` / `fs.existsSync`: the path is a regular file or a
directory. -/
def isPathAvailable (fs : FS) (p : AbsPath) : Bool :=
  (lookupFile fs p).isSome || fs.dirs.any (fun d => d == p)

/-- `LOCK_FILES` from `constants.ts`. -/
def LOCK_FILES : List String :=
  ["package-lock.json", "yarn.lock", "pnpm-lock.yaml", "bun.lockb"]

/-- `WORKSPACE_INDICATORS` from `constants.ts` (note the two-segment editor
config entry). -/
def WORKSPACE_INDICATORS : List String :=
  [".git", "lerna.json", "nx.json", "rush.json", "workspace.json",
   "pnpm-workspace.yaml", "turbo.json", "bazel.build", "WORKSPACE",
   "deno.json", "deno.jsonc", "cargo.toml", "go.work",
   ".vscode/settings.json"]

/-- `ALL_WORKSPACE_FILES` from `constants.ts`. -/
def ALL_WORKSPACE_FILES : List String :=
  LOCK_FILES ++ WORKSPACE_INDICATORS ++ ["package.json"]

/-- `containsAnyOfFiles` from `workspace-utils.ts`. -/
def containsAnyOfFiles (fs : FS) (dirPath : AbsPath) (files : List String) : Bool :=
  files.any (fun file => isPathAvailable fs (pathJoin dirPath file))

/-- `isValidWorkspaceConfig` from `workspace-utils.ts`: the switch is on
`path.basename(filePath)`; a read or parse that throws is caught and yields
`false`. -/
def isValidWorkspaceConfig (fs : FS) (filePath : AbsPath) : Bool :=
  let fileName := basename filePath
  if fileName = "cargo.toml" then
    match lookupFile fs filePath with
    | some fd => fd.cargo.getD false
    | none => false
  else if fileName = "deno.json" ∨ fileName = "deno.jsonc" then
    match lookupFile fs filePath with
    | some fd =>
      match fd.json with
      | some config => config.workspace || config.workspaces
      | none => false
    | none => false
  else if fileName = ".vscode/settings.json" then
    match lookupFile fs filePath with
    | some fd =>
      match fd.json with
      | some settings => settings.folders || settings.workspaceFolders
      | none => false
    | none => false
  else
    ALL_WORKSPACE_FILES.contains fileName

/-- `containsValidWorkspaceIndicators` from `workspace-utils.ts`. -/
def containsValidWorkspaceIndicators (fs : FS) (dirPath : AbsPath) : Bool :=
  WORKSPACE_INDICATORS.any (fun indicator =>
    let fullPath := pathJoin dirPath indicator
    isPathAvailable fs fullPath && isValidWorkspaceConfig fs fullPath)

/-- `isWorkspacePackageJson` from `workspace-utils.ts`. -/
def isWorkspacePackageJson (fs : FS) (packageJsonPath : AbsPath) : Bool :=
  match lookupFile fs packageJsonPath with
  | none => false
  | some fd =>
    match fd.json with
    | none => false
    | some pkg =>
      if pkg.workspaces then true
      else containsValidWorkspaceIndicators fs packageJsonPath.dropLast

/-- `getEnvFilesInDirectory` from `workspace-utils.ts`: the regular files
directly inside `dirPath` whose name starts with `.env` (a failing readdir
yields `[]`). -/
def getEnvFilesInDirectory (fs : FS) (dirPath : AbsPath) : List AbsPath :=
  if fs.dirs.any (fun d => d == dirPath) then
    (fs.files.map (fun e => e.1)).filter
      (fun q => q.dropLast == dirPath && strBegins (basename q) ".env")
  else []

/-- Detection method of `EnvFileResult`. -/
inductive Method where
  | lockfile
  | workspaceIndicators
deriving DecidableEq

/-- `EnvFileResult` from `workspace-utils.ts`. -/
structure EnvFileResult where
  envFiles : List AbsPath
  workspaceRoot : AbsPath
  method : Method
deriving DecidableEq

/-- The loop body of `findEnvFilesUsingLockFiles`.  The fuel argument is kept
equal to `p.length`, which makes the recursion structural and exact: the
`while (currentDir !== root)` loop runs once per component of the start path
and never tests the filesystem root `[]` itself. -/
def findLockGo (fs : FS) : Nat → List AbsPath → AbsPath → Option EnvFileResult
  | 0, _, _ => none
  | n + 1, acc, p =>
    if p.isEmpty then none
    else
      let acc2 := acc ++ getEnvFilesInDirectory fs p
      if containsAnyOfFiles fs p LOCK_FILES then
        some ⟨acc2.reverse, p, Method.lockfile⟩
      else
        findLockGo fs n acc2 p.dropLast

/-- `findEnvFilesUsingLockFiles` from `workspace-utils.ts`. -/
def findEnvFilesUsingLockFiles (fs : FS) (startDir : AbsPath) : Option EnvFileResult :=
  findLockGo fs startDir.length [] startDir

/-- The loop body of `findEnvFilesUsingWorkspaceIndicators`; fuel as in
`findLockGo`. -/
def findIndGo (fs : FS) : Nat → List AbsPath → AbsPath → Option EnvFileResult
  | 0, _, _ => none
  | n + 1, acc, p =>
    if p.isEmpty then none
    else
      let acc2 := acc ++ getEnvFilesInDirectory fs p
      if containsValidWorkspaceIndicators fs p then
        some ⟨acc2.reverse, p, Method.workspaceIndicators⟩
      else
        let packageJsonPath := pathJoin p "package.json"
        if isPathAvailable fs packageJsonPath && isWorkspacePackageJson fs packageJsonPath then
          some ⟨acc2.reverse, p, Method.workspaceIndicators⟩
        else
          findIndGo fs n acc2 p.dropLast

/-- `findEnvFilesUsingWorkspaceIndicators` from `workspace-utils.ts`. -/
def findEnvFilesUsingWorkspaceIndicators (fs : FS) (startDir : AbsPath) : Option EnvFileResult :=
  findIndGo fs startDir.length [] startDir

/-- `findEnvFiles` from `workspace-utils.ts`: the lock-file strategy in its
entirety first, the indicator strategy only when it found nothing. -/
def findEnvFiles (fs : FS) (startDir : AbsPath) : Option EnvFileResult :=
  match findEnvFilesUsingLockFiles fs startDir with
  | some lockFileResult => some lockFileResult
  | none => findEnvFilesUsingWorkspaceIndicators fs startDir

/-- Record lookup (`obj[key]`), first binding wins as in a deduplicated JS
object. -/
def getKey (m : List (String × String)) (k : String) : Option String :=
  (m.find? (fun e => e.1 == k)).map (fun e => e.2)

/-- Record update (`obj[key] = value`): update in place, else append. -/
def setKey : List (String × String) → String → String → List (String × String)
  | [], k, v => [(k, v)]
  | e :: rest, k, v =>
    if e.1 == k then (k, v) :: rest else e :: setKey rest k v

/-- `Object.assign(target, source)`: every binding of `source`, in order. -/
def objAssign (m adds : List (String × String)) : List (String × String) :=
  adds.foldl (fun acc e => setKey acc e.1 e.2) m

/-- `parseEnvFile` from `index.ts`: a missing file or a failing read or parse
is caught and contributes no keys. -/
def parseEnvFile (fs : FS) (filePath : AbsPath) : List (String × String) :=
  match lookupFile fs filePath with
  | some fd => fd.dotenv.getD []
  | none => []

/-- Whether `parseEnvFile` takes its warning branch on `filePath`. -/
def parseEnvFileWarns (fs : FS) (filePath : AbsPath) : Bool :=
  match lookupFile fs filePath with
  | some fd => fd.dotenv.isNone
  | none => true

/-- The directory-collection loop of `getNextJsEnvFiles` (`index.ts`):
from `currentDir` upward while it starts with `root`, stopping after `root`
itself.  Fuel as in `findLockGo` (one extra unit since the root `[]` may be
pushed). -/
def collectDirsGo (root : AbsPath) : Nat → AbsPath → List AbsPath
  | 0, _ => []
  | n + 1, dir =>
    if isLeadOf root dir then
      if dir = root then [dir]
      else dir :: collectDirsGo root n dir.dropLast
    else []

/-- The `dirs` list of `getNextJsEnvFiles`: start directory first, workspace
root last. -/
def collectDirs (root currentDir : AbsPath) : List AbsPath :=
  collectDirsGo root (currentDir.length + 1) currentDir

/-- One conditional candidate of `getNextJsEnvFiles`: kept when its guard
holds and the file exists on disk. -/
def candIf (fs : FS) (b : Bool) (p : AbsPath) : List AbsPath :=
  if b && isPathAvailable fs p then [p] else []

/-- The per-directory block of `getNextJsEnvFiles`, in its push order
(highest priority first); the two `local` candidates are guarded by
`nodeEnv !== "test"`. -/
def nextJsFilesInDir (fs : FS) (dirPath : AbsPath) (nodeEnv : String) : List AbsPath :=
  candIf fs (nodeEnv != "test") (pathJoin dirPath (".env." ++ nodeEnv ++ ".local"))
    ++ candIf fs (nodeEnv != "test") (pathJoin dirPath ".env.local")
    ++ candIf fs true (pathJoin dirPath (".env." ++ nodeEnv))
    ++ candIf fs true (pathJoin dirPath ".env")

/-- `getNextJsEnvFiles` from `index.ts`: candidate files, highest priority
first. -/
def getNextJsEnvFiles (fs : FS) (workspaceRoot currentDir : AbsPath) (nodeEnv : String) :
    List AbsPath :=
  ((collectDirs workspaceRoot currentDir).map
    (fun dirPath => nextJsFilesInDir fs dirPath nodeEnv)).flatten

/-- One iteration of the load-and-merge loop of `loadEnvTree`. -/
def mergeStep (fs : FS) (acc : List (String × String) × List AbsPath) (filePath : AbsPath) :
    List (String × String) × List AbsPath :=
  if isPathAvailable fs filePath then
    (objAssign acc.1 (parseEnvFile fs filePath), acc.2 ++ [filePath])
  else acc

/-- The load-and-merge loop of `loadEnvTree` over the already-reversed file
list: accumulates the merged record and `filesLoaded`. -/
def mergeFiles (fs : FS) (files : List AbsPath) : List (String × String) × List AbsPath :=
  files.foldl (mergeStep fs) ([], [])

/-- The environment-mutation loop of `loadEnvTree`: write only keys not
already present. -/
def applyEnv (envVars : List (String × String)) (env : Env) : Env :=
  envVars.foldl (fun e kv => if (getKey e kv.1).isSome then e else e ++ [kv]) env

/-- `EnvTreeResult` from `index.ts`. -/
structure EnvTreeResult where
  envVars : List (String × String)
  filesLoaded : List AbsPath
  workspaceRoot : AbsPath
  method : Method
deriving DecidableEq

/-- `loadEnvTree` from `index.ts` (the convention option has a single value
and is unused; `startDir`, `setEnv` and `nodeEnv` are the remaining options;
the ambient process environment is passed and returned explicitly). -/
def loadEnvTree (fs : FS) (startDir : AbsPath) (setEnv : Bool) (nodeEnv : String)
    (env : Env) : Option EnvTreeResult × Env :=
  match findEnvFiles fs startDir with
  | none => (none, env)
  | some result =>
    let filesToLoad := getNextJsEnvFiles fs result.workspaceRoot startDir nodeEnv
    let merged := mergeFiles fs filesToLoad.reverse
    let env2 := if setEnv then applyEnv merged.1 env else env
    (some ⟨merged.1, merged.2, result.workspaceRoot, result.method⟩, env2)

/-- Directories from the workspace root first down to the start directory
last, as the specification words it: the leading segments of `start` of
length `root.length` through `start.length`. -/
def chainDown (root start : AbsPath) : List AbsPath :=
  (List.range' root.length (start.length + 1 - root.length)).map
    (fun n => start.take n)

/-- The specification's per-directory candidate block, base first:
`.env`, `.env.<name>`, `.env.local`, `.env.<name>.local`, the two local
entries suppressed entirely for the `test` environment, existing files
only. -/
def specFilesInDir (fs : FS) (dirPath : AbsPath) (nodeEnv : String) : List AbsPath :=
  candIf fs true (pathJoin dirPath ".env")
    ++ candIf fs true (pathJoin dirPath (".env." ++ nodeEnv))
    ++ candIf fs (nodeEnv != "test") (pathJoin dirPath ".env.local")
    ++ candIf fs (nodeEnv != "test") (pathJoin dirPath (".env." ++ nodeEnv ++ ".local"))

/-- The specification's merge order: all candidate blocks, workspace root
first, start directory last. -/
def specCandidates (fs : FS) (root start : AbsPath) (nodeEnv : String) : List AbsPath :=
  ((chainDown root start).map (fun dirPath => specFilesInDir fs dirPath nodeEnv)).flatten

/-- The last binding of `k` in an association list (later bindings
override). -/
def lastVal : List (String × String) → String → Option String
  | [], _ => none
  | e :: rest, k =>
    match lastVal rest k with
    | some v => some v
    | none => if e.1 == k then some e.2 else none

/-- The specification's last-writer-wins reading of the merge: the value of
`k` contributed by the last existing file, in merge order, whose parse
defines `k`. -/
def lastFileVal (fs : FS) : List AbsPath → String → Option String
  | [], _ => none
  | f :: rest, k =>
    match lastFileVal fs rest k with
    | some v => some v
    | none =>
      if isPathAvailable fs f then lastVal (parseEnvFile fs f) k else none

/-- Modelled from the spec: the key-filter variant of the loader.  The
`prefixFilter` load option appears in this repository's `runnable` caller and
in the specification (retain only keys matching the configured leading
string, default none, and write only surviving keys), but the variant of
`index.ts` implementing it is not among the sources; the filtering step here
follows the specification's words on top of `loadEnvTree`'s pipeline. -/
def loadEnvTreeFiltered (fs : FS) (startDir : AbsPath) (setEnv : Bool)
    (nodeEnv : String) (keyFilter : Option String) (env : Env) :
    Option EnvTreeResult × Env :=
  match findEnvFiles fs startDir with
  | none => (none, env)
  | some result =>
    let filesToLoad := getNextJsEnvFiles fs result.workspaceRoot startDir nodeEnv
    let merged := mergeFiles fs filesToLoad.reverse
    let surviving :=
      match keyFilter with
      | some lead => merged.1.filter (fun kv => strBegins kv.1 lead)
      | none => merged.1
    let env2 := if setEnv then applyEnv surviving env else env
    (some ⟨surviving, merged.2, result.workspaceRoot, result.method⟩, env2)

/-- A file none of the readers can parse (e.g. a lock file, or a file whose
read or parse throws everywhere). -/
def plainFile : FileData := ⟨none, none, none⟩

/-- A dotenv file with the given bindings. -/
def envFile (l : List (String × String)) : FileData := ⟨none, none, some l⟩

/-- Example tree for the merge-override law: `/ws` holds a lock file and
`.env` with `A=1`; `/ws/pkg` holds `.env` with `A=2, B=3`. -/
def fsC1 : FS :=
  ⟨[(["ws", "package-lock.json"], plainFile),
    (["ws", ".env"], envFile [("A", "1")]),
    (["ws", "pkg", ".env"], envFile [("A", "2"), ("B", "3")])],
   [[], ["ws"], ["ws", "pkg"]]⟩

/-- The result of the C1 example load. -/
def rC1 : EnvTreeResult :=
  ⟨[("A", "2"), ("B", "3")],
   [["ws", ".env"], ["ws", "pkg", ".env"]],
   ["ws"], Method.lockfile⟩

/-- Example tree where `/a` holds both a lock file and an indicator file. -/
def fsC2 : FS :=
  ⟨[(["a", "package-lock.json"], plainFile),
    (["a", "lerna.json"], plainFile)],
   [[], ["a"]]⟩

/-- Example tree: `/w` holds a lock file and `.env` resolving `A=fromfile`
and `B=newval`. -/
def fsC3 : FS :=
  ⟨[(["w", "package-lock.json"], plainFile),
    (["w", ".env"], envFile [("A", "fromfile"), ("B", "newval")])],
   [[], ["w"]]⟩

/-- An ambient environment that already defines `A`. -/
def envC3 : Env := [("A", "preexisting")]

/-- The result of the C3 example load. -/
def rC3 : EnvTreeResult :=
  ⟨[("A", "fromfile"), ("B", "newval")], [["w", ".env"]], ["w"], Method.lockfile⟩

/-- Example tree with all four candidate names on disk at `/a`. -/
def fsC4 : FS :=
  ⟨[(["a", "package-lock.json"], plainFile),
    (["a", ".env"], envFile [("K", "b")]),
    (["a", ".env.test"], envFile [("K", "t")]),
    (["a", ".env.local"], envFile [("K", "l")]),
    (["a", ".env.test.local"], envFile [("K", "tl")])],
   [[], ["a"]]⟩

/-- The result of the C4 example load under the `test` environment. -/
def rC4 : EnvTreeResult :=
  ⟨[("K", "t")], [["a", ".env"], ["a", ".env.test"]], ["a"], Method.lockfile⟩

/-- Example tree whose only lock file sits at the filesystem root itself. -/
def fsC5 : FS :=
  ⟨[(["package-lock.json"], plainFile)], [[], ["a"]]⟩

/-- Example tree with a lock file at `/a` (strictly below the filesystem
root). -/
def fsC5b : FS :=
  ⟨[(["a", "yarn.lock"], plainFile)], [[], ["a"]]⟩

/-- Example tree: `/a/.vscode/settings.json` exists, its structured-config
parse succeeds and declares folder entries; nothing else is present. -/
def fsC6 : FS :=
  ⟨[(["a", ".vscode", "settings.json"],
     ⟨none, some ⟨false, false, true, false⟩, none⟩)],
   [[], ["a"], ["a", ".vscode"]]⟩

/-- Example tree whose merged keys are `NEXT_PUBLIC_X` and `SECRET`. -/
def fsC7 : FS :=
  ⟨[(["w", "package-lock.json"], plainFile),
    (["w", ".env"], envFile [("NEXT_PUBLIC_X", "1"), ("SECRET", "2")])],
   [[], ["w"]]⟩

/-- Example tree where the `.env` of `/w/pkg` exists but its dotenv parse
throws, while `/w/.env` parses to `A=1`. -/
def fsC8 : FS :=
  ⟨[(["w", "package-lock.json"], plainFile),
    (["w", ".env"], envFile [("A", "1")]),
    (["w", "pkg", ".env"], plainFile)],
   [[], ["w"], ["w", "pkg"]]⟩

/-- Example tree where `/a/deno.json` exists but its structured-config parse
throws. -/
def fsC9 : FS :=
  ⟨[(["a", "deno.json"], plainFile)], [[], ["a"]]⟩

theorem lead_iff_take (root : AbsPath) : ∀ p : AbsPath,
    isLeadOf root p = true ↔ p.take root.length = root := by
  induction root with
  | nil => intro p; simp [isLeadOf]
  | cons a as ih =>
    intro p
    cases p with
    | nil => simp [isLeadOf]
    | cons b bs =>
      simp only [isLeadOf, Bool.and_eq_true, beq_iff_eq, List.length_cons,
        List.take_succ_cons, List.cons.injEq, ih bs]
      constructor
      · rintro ⟨h1, h2⟩; exact ⟨h1.symm, h2⟩
      · rintro ⟨h1, h2⟩; exact ⟨h1.symm, h2⟩

theorem lead_length_le {root p : AbsPath} (h : isLeadOf root p = true) :
    root.length ≤ p.length := by
  have h2 := (lead_iff_take root p).1 h
  have h3 : (p.take root.length).length = root.length := by rw [h2]
  rw [List.length_take] at h3
  omega

theorem lead_refl (p : AbsPath) : isLeadOf p p = true := by
  rw [lead_iff_take]; exact List.take_length p

theorem lead_take : ∀ (p : AbsPath) (n : Nat), isLeadOf (p.take n) p = true
  | _, 0 => rfl
  | [], _ + 1 => rfl
  | b :: bs, n + 1 => by
    simp only [List.take_succ_cons, isLeadOf, lead_take bs n, Bool.and_true,
      beq_self_eq_true]

theorem lead_dropLast : ∀ (root p : AbsPath), isLeadOf root p = true → root ≠ p →
    isLeadOf root p.dropLast = true
  | [], _, _, _ => rfl
  | _ :: _, [], h, _ => by simp [isLeadOf] at h
  | a :: as, [b], h, hne => by
    cases as with
    | nil =>
      simp only [isLeadOf, Bool.and_eq_true, beq_iff_eq] at h
      exact absurd (by rw [h.1]) hne
    | cons x xs => simp [isLeadOf] at h
  | a :: as, b :: c :: cs, h, hne => by
    simp only [isLeadOf, Bool.and_eq_true, beq_iff_eq] at h
    obtain ⟨hab, hlead⟩ := h
    have hne2 : as ≠ c :: cs := by
      intro hEq; apply hne; rw [hab, hEq]
    have hrec := lead_dropLast as (c :: cs) hlead hne2
    simp only [List.dropLast, isLeadOf, Bool.and_eq_true, beq_iff_eq]
    exact ⟨hab, hrec⟩

theorem lead_trans : ∀ (a b c : AbsPath), isLeadOf a b = true → isLeadOf b c = true →
    isLeadOf a c = true
  | [], _, _, _, _ => rfl
  | _ :: _, [], _, h, _ => by simp [isLeadOf] at h
  | _ :: _, _ :: _, [], _, h2 => by simp [isLeadOf] at h2
  | x :: xs, y :: ys, z :: zs, h1, h2 => by
    simp only [isLeadOf, Bool.and_eq_true, beq_iff_eq] at h1 h2 ⊢
    exact ⟨h1.1.trans h2.1, lead_trans xs ys zs h1.2 h2.2⟩

theorem lead_dropLast_iff {d p : AbsPath} :
    isLeadOf d p = true ↔ (d = p ∨ isLeadOf d p.dropLast = true) := by
  constructor
  · intro h
    by_cases hd : d = p
    · exact Or.inl hd
    · exact Or.inr (lead_dropLast d p h hd)
  · rintro (rfl | h)
    · exact lead_refl _
    · refine lead_trans d p.dropLast p h ?_
      rw [List.dropLast_eq_take]
      exact lead_take p (p.length - 1)

theorem getKey_nil (k : String) : getKey [] k = none := rfl

theorem getKey_cons (m : List (String × String)) (k1 v1 k : String) :
    getKey ((k1, v1) :: m) k = if k1 == k then some v1 else getKey m k := by
  by_cases h : k1 == k <;> simp [getKey, List.find?, h]

theorem getKey_append (m1 m2 : List (String × String)) (k : String) :
    getKey (m1 ++ m2) k = (getKey m1 k).or (getKey m2 k) := by
  unfold getKey
  rw [List.find?_append]
  cases List.find? (fun e => e.1 == k) m1 <;> simp [Option.or]

theorem getKey_setKey (m : List (String × String)) (k1 v1 k : String) :
    getKey (setKey m k1 v1) k = if k1 == k then some v1 else getKey m k := by
  induction m with
  | nil =>
    by_cases h : k1 == k <;> simp [setKey, getKey_cons, getKey_nil, h]
  | cons e rest ih =>
    obtain ⟨ek, ev⟩ := e
    by_cases h : ek = k1
    · subst h
      have hstep : setKey ((ek, ev) :: rest) ek v1 = (ek, v1) :: rest := by
        simp [setKey]
      rw [hstep]
      simp only [getKey_cons]
      by_cases hk : ek == k <;> simp [hk]
    · have hstep : setKey ((ek, ev) :: rest) k1 v1 = (ek, ev) :: setKey rest k1 v1 := by
        simp [setKey, h]
      rw [hstep]
      simp only [getKey_cons, ih]
      by_cases he : ek = k
      · subst he
        have hk : (k1 == ek) = false := by
          simp only [beq_eq_false_iff_ne, ne_eq]
          intro hEq; exact h hEq.symm
        simp [hk]
      · simp [he]

theorem getKey_objAssign (adds : List (String × String)) :
    ∀ (m : List (String × String)) (k : String),
      getKey (objAssign m adds) k = (lastVal adds k).or (getKey m k) := by
  induction adds with
  | nil => intro m k; rfl
  | cons e rest ih =>
    intro m k
    rw [show objAssign m (e :: rest) = objAssign (setKey m e.1 e.2) rest from rfl, ih]
    cases hr : lastVal rest k with
    | some v => simp [lastVal, hr]
    | none =>
      simp only [lastVal, hr, getKey_setKey]
      by_cases h : e.1 == k <;> simp [h, Option.or]

theorem applyEnv_keeps (m : List (String × String)) :
    ∀ (env : Env) (k v : String), getKey env k = some v →
      getKey (applyEnv m env) k = some v := by
  induction m with
  | nil => intro env k v h; exact h
  | cons e rest ih =>
    intro env k v h
    rw [show applyEnv (e :: rest) env =
      applyEnv rest (if (getKey env e.1).isSome then env else env ++ [e]) from rfl]
    by_cases hs : (getKey env e.1).isSome
    · simp only [hs, if_true]; exact ih env k v h
    · simp only [hs, if_false, Bool.false_eq_true]
      apply ih
      rw [getKey_append, h]; rfl

theorem applyEnv_new (m : List (String × String)) :
    ∀ (env : Env) (k : String), getKey env k = none →
      getKey (applyEnv m env) k = getKey m k := by
  induction m with
  | nil => intro env k h; exact h
  | cons e rest ih =>
    intro env k h
    obtain ⟨ek, ev⟩ := e
    rw [show applyEnv ((ek, ev) :: rest) env =
      applyEnv rest (if (getKey env ek).isSome then env else env ++ [(ek, ev)]) from rfl]
    rw [getKey_cons]
    by_cases hs : (getKey env ek).isSome
    · simp only [hs, if_true]
      have hne : (ek == k) = false := by
        simp only [beq_eq_false_iff_ne, ne_eq]
        intro hEq
        rw [hEq, h] at hs
        simp at hs
      rw [ih env k h, hne]
      simp
    · simp only [hs, if_false, Bool.false_eq_true]
      by_cases hk : ek = k
      · subst hk
        have hx : getKey (env ++ [(ek, ev)]) ek = some ev := by
          rw [getKey_append, h]
          simp [getKey_cons]
        rw [applyEnv_keeps rest _ ek ev hx]
        simp
      · have hbeq : (ek == k) = false := by simp [hk]
        have hx : getKey (env ++ [(ek, ev)]) k = none := by
          rw [getKey_append, h]
          simp [getKey_cons, hbeq, Option.or, getKey_nil]
        rw [ih _ k hx, hbeq]
        simp

theorem mergeFold_fst (fs : FS) (files : List AbsPath) :
    ∀ (acc : List (String × String) × List AbsPath) (k : String),
      getKey (files.foldl (mergeStep fs) acc).1 k =
        (lastFileVal fs files k).or (getKey acc.1 k) := by
  induction files with
  | nil => intro acc k; rfl
  | cons f rest ih =>
    intro acc k
    rw [List.foldl_cons, ih]
    cases hr : lastFileVal fs rest k with
    | some v => simp [lastFileVal, hr, Option.or]
    | none =>
      simp only [lastFileVal, hr]
      unfold mergeStep
      by_cases ha : isPathAvailable fs f
      · simp [ha, getKey_objAssign, Option.or]
      · simp [ha, Option.or]

theorem mergeFold_snd (fs : FS) (files : List AbsPath) :
    ∀ (acc : List (String × String) × List AbsPath),
      (files.foldl (mergeStep fs) acc).2 =
        acc.2 ++ files.filter (fun p => isPathAvailable fs p) := by
  induction files with
  | nil => intro acc; simp
  | cons f rest ih =>
    intro acc
    rw [List.foldl_cons, ih]
    unfold mergeStep
    by_cases ha : isPathAvailable fs f <;>
      simp [ha, List.filter_cons, List.append_assoc]

theorem mergeFold_fst_indep (fs : FS) (files : List AbsPath) :
    ∀ (m : List (String × String)) (t1 t2 : List AbsPath),
      (files.foldl (mergeStep fs) (m, t1)).1 = (files.foldl (mergeStep fs) (m, t2)).1 := by
  induction files with
  | nil => intros; rfl
  | cons f rest ih =>
    intro m t1 t2
    rw [List.foldl_cons, List.foldl_cons]
    unfold mergeStep
    by_cases ha : isPathAvailable fs f <;> simp only [ha, if_true, if_false,
      Bool.false_eq_true] <;> apply ih

theorem loadEnvTree_eq (fs : FS) (s : AbsPath) (b : Bool) (e : String) (env : Env)
    (r : EnvTreeResult) (h : (loadEnvTree fs s b e env).1 = some r) :
    r.envVars = (mergeFiles fs ((getNextJsEnvFiles fs r.workspaceRoot s e).reverse)).1 ∧
    r.filesLoaded = (mergeFiles fs ((getNextJsEnvFiles fs r.workspaceRoot s e).reverse)).2 := by
  unfold loadEnvTree at h
  cases hf : findEnvFiles fs s with
  | none => rw [hf] at h; simp at h
  | some res =>
    rw [hf] at h
    simp only [Option.some.injEq] at h
    subst h
    exact ⟨rfl, rfl⟩

theorem chainDown_self (root : AbsPath) : chainDown root root = [root] := by
  unfold chainDown
  have h1 : root.length + 1 - root.length = 1 := by omega
  rw [h1, List.range'_succ]
  simp [List.take_length]

theorem chainDown_step (root p : AbsPath) (h : isLeadOf root p = true) (hne : root ≠ p) :
    chainDown root p = chainDown root p.dropLast ++ [p] := by
  have hlt : root.length < p.length := by
    have hle := lead_length_le h
    rcases Nat.lt_or_ge root.length p.length with h1 | h1
    · exact h1
    · exfalso
      apply hne
      have h2 := (lead_iff_take root p).1 h
      have hlen : root.length = p.length := by omega
      rw [hlen, List.take_length] at h2
      exact h2.symm
  unfold chainDown
  have e1 : p.length + 1 - root.length = (p.length - root.length) + 1 := by omega
  rw [e1, List.range'_concat, List.map_append]
  congr 1
  · have e2 : p.dropLast.length + 1 - root.length = p.length - root.length := by
      rw [List.length_dropLast]; omega
    rw [e2]
    apply List.map_congr_left
    intro i hi
    rw [List.mem_range'] at hi
    obtain ⟨j, hj, rfl⟩ := hi
    rw [List.dropLast_eq_take, List.take_take]
    congr 1
    simp only [one_mul] at hj ⊢
    rw [inf_eq_min, Nat.min_def]
    split <;> omega
  · simp only [one_mul]
    have e3 : root.length + (p.length - root.length) = p.length := by omega
    rw [e3]
    simp [List.take_length]

theorem collectDirsGo_eq (root : AbsPath) :
    ∀ (n : Nat) (p : AbsPath), isLeadOf root p = true → p.length + 1 = n →
      collectDirsGo root n p = (chainDown root p).reverse := by
  intro n
  induction n with
  | zero => intro p h hn; omega
  | succ m ih =>
    intro p h hn
    unfold collectDirsGo
    rw [if_pos h]
    by_cases hp : p = root
    · subst hp
      rw [if_pos rfl, chainDown_self]
      rfl
    · rw [if_neg hp]
      have hne : root ≠ p := fun hEq => hp hEq.symm
      have hpne : p ≠ [] := by
        intro hnil
        subst hnil
        cases hroot : root with
        | nil => rw [hroot] at hp; exact hp rfl
        | cons a as => rw [hroot] at h; simp [isLeadOf] at h
      have hlead2 : isLeadOf root p.dropLast = true := lead_dropLast root p h hne
      have hlen : p.dropLast.length + 1 = m := by
        rw [List.length_dropLast]
        have hge : 1 ≤ p.length := by
          cases p with
          | nil => exact absurd rfl hpne
          | cons x xs => simp
        omega
      rw [ih p.dropLast hlead2 hlen, chainDown_step root p h hne, List.reverse_append]
      rfl

theorem collectDirs_eq (root p : AbsPath) (h : isLeadOf root p = true) :
    collectDirs root p = (chainDown root p).reverse :=
  collectDirsGo_eq root (p.length + 1) p h rfl

theorem candIf_reverse (fs : FS) (b : Bool) (p : AbsPath) :
    (candIf fs b p).reverse = candIf fs b p := by
  unfold candIf
  split <;> simp

theorem nextJs_reverse_perDir (fs : FS) (d : AbsPath) (e : String) :
    (nextJsFilesInDir fs d e).reverse = specFilesInDir fs d e := by
  unfold nextJsFilesInDir specFilesInDir
  simp only [List.reverse_append, candIf_reverse, List.append_assoc]

theorem nextJs_reverse (fs : FS) (root start : AbsPath) (e : String)
    (h : isLeadOf root start = true) :
    (getNextJsEnvFiles fs root start e).reverse = specCandidates fs root start e := by
  unfold getNextJsEnvFiles specCandidates
  rw [List.reverse_flatten, List.map_map, collectDirs_eq root start h]
  rw [show ((chainDown root start).reverse.map
    (List.reverse ∘ fun dirPath => nextJsFilesInDir fs dirPath e)).reverse
    = ((chainDown root start).reverse.reverse.map
      (List.reverse ∘ fun dirPath => nextJsFilesInDir fs dirPath e)) from
    (List.map_reverse _ _).symm]
  rw [List.reverse_reverse]
  congr 1
  apply List.map_congr_left
  intro d _
  exact nextJs_reverse_perDir fs d e

theorem lockGo_some (fs : FS) : ∀ (n : Nat) (acc : List AbsPath) (p : AbsPath)
    (r : EnvFileResult), p.length = n → findLockGo fs n acc p = some r →
      r.method = Method.lockfile ∧ isLeadOf r.workspaceRoot p = true ∧
      r.workspaceRoot ≠ [] ∧
      containsAnyOfFiles fs r.workspaceRoot LOCK_FILES = true ∧
      ∀ d : AbsPath, isLeadOf d p = true → r.workspaceRoot.length < d.length →
        containsAnyOfFiles fs d LOCK_FILES = false := by
  intro n
  induction n with
  | zero => intro acc p r hn h; simp [findLockGo] at h
  | succ m ih =>
    intro acc p r hn h
    have hpne : p ≠ [] := by
      intro hnil; rw [hnil] at hn; simp at hn
    unfold findLockGo at h
    rw [if_neg (by simp [hpne])] at h
    by_cases hc : containsAnyOfFiles fs p LOCK_FILES
    · rw [if_pos hc] at h
      simp only [Option.some.injEq] at h
      subst h
      refine ⟨rfl, lead_refl p, hpne, hc, ?_⟩
      intro d hd hlen
      change p.length < d.length at hlen
      exact absurd (lead_length_le hd) (by omega)
    · rw [if_neg hc] at h
      have hlen : p.dropLast.length = m := by
        rw [List.length_dropLast]; omega
      obtain ⟨h1, h2, h3, h4, h5⟩ := ih _ p.dropLast r hlen h
      refine ⟨h1, lead_dropLast_iff.2 (Or.inr h2), h3, h4, ?_⟩
      intro d hd hroot
      rcases lead_dropLast_iff.1 hd with rfl | hd2
      · exact eq_false_of_ne_true hc
      · exact h5 d hd2 hroot

theorem lockGo_none_iff (fs : FS) : ∀ (n : Nat) (acc : List AbsPath) (p : AbsPath),
    p.length = n →
      (findLockGo fs n acc p = none ↔
        ∀ d : AbsPath, isLeadOf d p = true → d ≠ [] →
          containsAnyOfFiles fs d LOCK_FILES = false) := by
  intro n
  induction n with
  | zero =>
    intro acc p hn
    have hp : p = [] := List.length_eq_zero.1 hn
    subst hp
    constructor
    · intro _ d hd hdne
      exfalso
      apply hdne
      cases hdd : d with
      | nil => rfl
      | cons x xs => rw [hdd] at hd; simp [isLeadOf] at hd
    · intro _; rfl
  | succ m ih =>
    intro acc p hn
    have hpne : p ≠ [] := by
      intro hnil; rw [hnil] at hn; simp at hn
    unfold findLockGo
    rw [if_neg (by simp [hpne])]
    by_cases hc : containsAnyOfFiles fs p LOCK_FILES
    · rw [if_pos hc]
      constructor
      · intro habs; simp at habs
      · intro hall
        exact absurd hc (by rw [hall p (lead_refl p) hpne]; simp)
    · rw [if_neg hc]
      have hlen : p.dropLast.length = m := by
        rw [List.length_dropLast]; omega
      rw [ih _ p.dropLast hlen]
      constructor
      · intro hall d hd hdne
        rcases lead_dropLast_iff.1 hd with rfl | hd2
        · exact eq_false_of_ne_true hc
        · exact hall d hd2 hdne
      · intro hall d hd hdne
        exact hall d (lead_dropLast_iff.2 (Or.inr hd)) hdne

theorem lockAscent_some (fs : FS) (s : AbsPath) (r : EnvFileResult)
    (h : findEnvFilesUsingLockFiles fs s = some r) :
    r.method = Method.lockfile ∧ isLeadOf r.workspaceRoot s = true ∧
    r.workspaceRoot ≠ [] ∧
    containsAnyOfFiles fs r.workspaceRoot LOCK_FILES = true ∧
    ∀ d : AbsPath, isLeadOf d s = true → r.workspaceRoot.length < d.length →
      containsAnyOfFiles fs d LOCK_FILES = false :=
  lockGo_some fs s.length [] s r rfl h

theorem lockAscent_none_iff (fs : FS) (s : AbsPath) :
    findEnvFilesUsingLockFiles fs s = none ↔
      ∀ d : AbsPath, isLeadOf d s = true → d ≠ [] →
        containsAnyOfFiles fs d LOCK_FILES = false :=
  lockGo_none_iff fs s.length [] s rfl

theorem findEnvFiles_of_lock (fs : FS) (s : AbsPath) (r : EnvFileResult)
    (h : findEnvFilesUsingLockFiles fs s = some r) : findEnvFiles fs s = some r := by
  unfold findEnvFiles
  rw [h]

theorem findEnvFiles_of_none (fs : FS) (s : AbsPath)
    (h : findEnvFilesUsingLockFiles fs s = none) :
    findEnvFiles fs s = findEnvFilesUsingWorkspaceIndicators fs s := by
  unfold findEnvFiles
  rw [h]

theorem candIf_mem (fs : FS) (b : Bool) (p q : AbsPath) :
    q ∈ candIf fs b p ↔ q = p ∧ (b && isPathAvailable fs p) = true := by
  unfold candIf
  by_cases h : (b && isPathAvailable fs p) = true
  · simp [h]
  · simp [h]

theorem mem_getNextJs (fs : FS) (root s : AbsPath) (e : String) (q : AbsPath) :
    q ∈ getNextJsEnvFiles fs root s e ↔
      ∃ d ∈ collectDirs root s, q ∈ nextJsFilesInDir fs d e := by
  unfold getNextJsEnvFiles
  simp [List.mem_flatten]

theorem mem_nextJs_test (fs : FS) (d q : AbsPath) :
    q ∈ nextJsFilesInDir fs d "test" ↔
      ((q = pathJoin d ".env.test" ∧
          isPathAvailable fs (pathJoin d ".env.test") = true) ∨
        (q = pathJoin d ".env" ∧ isPathAvailable fs (pathJoin d ".env") = true)) := by
  unfold nextJsFilesInDir
  have htest : (("test" : String) != "test") = false := by decide
  have henv : (".env." ++ "test" : String) = ".env.test" := rfl
  rw [htest, henv]
  simp only [List.mem_append, candIf_mem, Bool.false_and, Bool.true_and]
  constructor
  · rintro (((⟨_, hF⟩ | ⟨_, hF⟩) | h) | h)
    · exact absurd hF (by simp)
    · exact absurd hF (by simp)
    · exact Or.inl h
    · exact Or.inr h
  · rintro (h | h)
    · exact Or.inl (Or.inr h)
    · exact Or.inr h

theorem pathJoin_single (d : AbsPath) : pathJoin d ".env" = d ++ [".env"] := rfl

theorem basename_concat (d : AbsPath) (nm : String) : basename (d ++ [nm]) = nm := by
  unfold basename
  rw [List.getLast?_concat]
  rfl

theorem getKey_filter (lead : String) (m : List (String × String)) (k : String) :
    getKey (m.filter (fun kv => strBegins kv.1 lead)) k =
      if strBegins k lead = true then getKey m k else none := by
  induction m with
  | nil => split <;> rfl
  | cons e rest ih =>
    obtain ⟨ek, ev⟩ := e
    rw [List.filter_cons]
    by_cases hb : strBegins ek lead = true
    · rw [if_pos (by simpa using hb)]
      rw [getKey_cons, getKey_cons, ih]
      by_cases hk : ek = k
      · subst hk
        simp [hb]
      · have hne : (ek == k) = false := by simp [hk]
        rw [hne]
        simp
    · rw [if_neg (by simpa using hb)]
      rw [ih, getKey_cons]
      by_cases hk : ek = k
      · subst hk
        rw [if_neg (by simpa using hb)]
        rw [if_neg (by simpa using hb)]
      · have hne : (ek == k) = false := by simp [hk]
        rw [hne]
        simp

/-- Claim C1: for every workspace root, every start directory beneath it and
every environment name, `loadEnvTree` merges the existing candidate files by
a last-writer-wins fold in base-to-highest-priority order — across
directories from the workspace root first down to the start directory last,
and within each directory in the order `.env`, `.env.<name>`, `.env.local`,
`.env.<name>.local` — so on a duplicate key the file closer to the start
directory wins. -/
theorem claim_c1_merge_order (fs : FS) (root start : AbsPath) (e : String)
    (env : Env) (b : Bool) (hroot : isLeadOf root start = true) :
    (getNextJsEnvFiles fs root start e).reverse = specCandidates fs root start e
    ∧ ∀ r : EnvTreeResult, (loadEnvTree fs start b e env).1 = some r →
        ∀ k : String, getKey r.envVars k =
          lastFileVal fs ((getNextJsEnvFiles fs r.workspaceRoot start e).reverse) k := by
  refine ⟨nextJs_reverse fs root start e hroot, ?_⟩
  intro r h k
  obtain ⟨h1, _⟩ := loadEnvTree_eq fs start b e env r h
  rw [h1]
  unfold mergeFiles
  rw [mergeFold_fst]
  cases lastFileVal fs ((getNextJsEnvFiles fs r.workspaceRoot start e).reverse) k <;> rfl

/-- Witness for C1: the spec's override example — root `.env` holding `A=1`,
leaf `.env` holding `A=2, B=3` — merges to `A=2, B=3`. -/
theorem claim_c1_merge_order_witness :
    ((getNextJsEnvFiles fsC1 ["ws"] ["ws", "pkg"] "development").reverse
        = specCandidates fsC1 ["ws"] ["ws", "pkg"] "development")
    ∧ getKey rC1.envVars "A" =
        lastFileVal fsC1
          ((getNextJsEnvFiles fsC1 rC1.workspaceRoot ["ws", "pkg"] "development").reverse) "A"
    ∧ getKey rC1.envVars "A" = some "2"
    ∧ getKey rC1.envVars "B" = some "3"
    ∧ (loadEnvTree fsC1 ["ws", "pkg"] true "development" []).1 = some rC1 := by
  have h := claim_c1_merge_order fsC1 ["ws"] ["ws", "pkg"] "development" [] true (by decide)
  exact ⟨h.1, h.2 rC1 (by decide) "A", by decide, by decide, by decide⟩

/-- Claim C2: `findEnvFiles` runs the lock-file ascent in its entirety first
and returns its result whenever it finds something; the indicator strategy
is consulted exactly when the lock-file ascent finds nothing, and whenever a
tested ancestor-or-self holds a lock file the returned method is the
lock-file method. -/
theorem claim_c2_lock_first (fs : FS) (s : AbsPath) :
    ((findEnvFilesUsingLockFiles fs s).isSome = true →
        findEnvFiles fs s = findEnvFilesUsingLockFiles fs s)
    ∧ (findEnvFilesUsingLockFiles fs s = none →
        findEnvFiles fs s = findEnvFilesUsingWorkspaceIndicators fs s)
    ∧ (∀ r : EnvFileResult, findEnvFilesUsingLockFiles fs s = some r →
        r.method = Method.lockfile)
    ∧ (∀ d : AbsPath, isLeadOf d s = true → d ≠ [] →
        containsAnyOfFiles fs d LOCK_FILES = true →
        (findEnvFiles fs s).map (fun r => r.method) = some Method.lockfile) := by
  refine ⟨?_, findEnvFiles_of_none fs s, ?_, ?_⟩
  · intro h
    cases hl : findEnvFilesUsingLockFiles fs s with
    | none => rw [hl] at h; simp at h
    | some r => rw [findEnvFiles_of_lock fs s r hl]
  · intro r h
    exact (lockAscent_some fs s r h).1
  · intro d hd hdne hc
    cases hl : findEnvFilesUsingLockFiles fs s with
    | none =>
      have hfalse := (lockAscent_none_iff fs s).1 hl d hd hdne
      rw [hfalse] at hc
      simp at hc
    | some r =>
      rw [findEnvFiles_of_lock fs s r hl]
      simp [(lockAscent_some fs s r hl).1]

/-- Witness for C2: a directory holding both a lock file and an indicator
file is reported with the lock-file method. -/
theorem claim_c2_lock_first_witness :
    (findEnvFiles fsC2 ["a"]).map (fun r => r.method) = some Method.lockfile := by
  have h := claim_c2_lock_first fsC2 ["a"]
  exact h.2.2.2 ["a"] (by decide) (by decide) (by decide)

/-- Claim C3: with environment mutation enabled, keys already present in the
ambient environment keep their pre-existing values, merged keys not present
are written with their merged values, and no other key is touched. -/
theorem claim_c3_first_writer (fs : FS) (s : AbsPath) (e : String) (env : Env) :
    (∀ k v : String, getKey env k = some v →
        getKey (loadEnvTree fs s true e env).2 k = some v)
    ∧ (∀ r : EnvTreeResult, (loadEnvTree fs s true e env).1 = some r →
        ∀ k : String, getKey env k = none →
          getKey (loadEnvTree fs s true e env).2 k = getKey r.envVars k) := by
  cases hf : findEnvFiles fs s with
  | none =>
    constructor
    · intro k v h
      simpa [loadEnvTree, hf] using h
    · intro r h
      simp [loadEnvTree, hf] at h
  | some res =>
    have hpair : loadEnvTree fs s true e env =
        (some ⟨(mergeFiles fs ((getNextJsEnvFiles fs res.workspaceRoot s e).reverse)).1,
               (mergeFiles fs ((getNextJsEnvFiles fs res.workspaceRoot s e).reverse)).2,
               res.workspaceRoot, res.method⟩,
         applyEnv (mergeFiles fs ((getNextJsEnvFiles fs res.workspaceRoot s e).reverse)).1
           env) := by
      simp [loadEnvTree, hf]
    constructor
    · intro k v h
      rw [hpair]
      exact applyEnv_keeps _ env k v h
    · intro r h k hk
      rw [hpair] at h
      simp only [Option.some.injEq] at h
      subst h
      rw [hpair]
      exact applyEnv_new _ env k hk

/-- Witness for C3: the ambient value of `A` survives a load resolving
`A=fromfile`, while the fresh key `B` is written. -/
theorem claim_c3_first_writer_witness :
    getKey (loadEnvTree fsC3 ["w"] true "development" envC3).2 "A" = some "preexisting"
    ∧ getKey (loadEnvTree fsC3 ["w"] true "development" envC3).2 "B" = some "newval" := by
  have h := claim_c3_first_writer fsC3 ["w"] "development" envC3
  refine ⟨h.1 "A" "preexisting" (by decide), ?_⟩
  have h2 := h.2 rC3 (by decide) "B" (by decide)
  rw [h2]
  decide

/-- Claim C4: under the target environment name `test`, no `.env.local` and
no `.env.test.local` path appears among the candidates or in `filesLoaded`,
even when present on disk, while existing `.env` and `.env.test` files of
chain directories still appear. -/
theorem claim_c4_test_exclusion (fs : FS) (root s : AbsPath) (b : Bool) (env : Env) :
    (∀ q : AbsPath, q ∈ getNextJsEnvFiles fs root s "test" →
        basename q = ".env" ∨ basename q = ".env.test")
    ∧ (∀ d : AbsPath, (d ++ [".env.local"]) ∉ getNextJsEnvFiles fs root s "test"
        ∧ (d ++ [".env.test.local"]) ∉ getNextJsEnvFiles fs root s "test")
    ∧ (∀ d : AbsPath, d ∈ collectDirs root s → ∀ nm : String,
        (nm = ".env" ∨ nm = ".env.test") → isPathAvailable fs (d ++ [nm]) = true →
        (d ++ [nm]) ∈ getNextJsEnvFiles fs root s "test")
    ∧ (∀ r : EnvTreeResult, (loadEnvTree fs s b "test" env).1 = some r →
        (∀ q : AbsPath, q ∈ r.filesLoaded →
            basename q = ".env" ∨ basename q = ".env.test")
        ∧ (∀ d : AbsPath, d ∈ collectDirs r.workspaceRoot s → ∀ nm : String,
            (nm = ".env" ∨ nm = ".env.test") →
            isPathAvailable fs (d ++ [nm]) = true → (d ++ [nm]) ∈ r.filesLoaded)) := by
  have hjoin1 : ∀ d : AbsPath, pathJoin d ".env" = d ++ [".env"] := fun _ => rfl
  have hjoin2 : ∀ d : AbsPath, pathJoin d ".env.test" = d ++ [".env.test"] := fun _ => rfl
  have hA : ∀ rt q : AbsPath, q ∈ getNextJsEnvFiles fs rt s "test" →
      basename q = ".env" ∨ basename q = ".env.test" := by
    intro rt q hq
    rw [mem_getNextJs] at hq
    obtain ⟨d, _, hmem⟩ := hq
    rw [mem_nextJs_test] at hmem
    rcases hmem with ⟨hq2, _⟩ | ⟨hq2, _⟩
    · right
      rw [hq2, hjoin2 d, basename_concat]
    · left
      rw [hq2, hjoin1 d, basename_concat]
  have hC : ∀ rt d : AbsPath, d ∈ collectDirs rt s → ∀ nm : String,
      (nm = ".env" ∨ nm = ".env.test") → isPathAvailable fs (d ++ [nm]) = true →
      (d ++ [nm]) ∈ getNextJsEnvFiles fs rt s "test" := by
    intro rt d hd nm hnm hav
    rw [mem_getNextJs]
    refine ⟨d, hd, ?_⟩
    rw [mem_nextJs_test]
    rcases hnm with rfl | rfl
    · right
      rw [hjoin1 d]
      exact ⟨rfl, hav⟩
    · left
      rw [hjoin2 d]
      exact ⟨rfl, hav⟩
  refine ⟨hA root, ?_, hC root, ?_⟩
  · intro d
    constructor
    · intro hmem
      rcases hA root _ hmem with hb | hb <;> rw [basename_concat] at hb <;> simp at hb
    · intro hmem
      rcases hA root _ hmem with hb | hb <;> rw [basename_concat] at hb <;> simp at hb
  · intro r h
    obtain ⟨_, h2⟩ := loadEnvTree_eq fs s b "test" env r h
    have hloaded : r.filesLoaded =
        ((getNextJsEnvFiles fs r.workspaceRoot s "test").reverse).filter
          (fun q => isPathAvailable fs q) := by
      rw [h2]
      unfold mergeFiles
      rw [mergeFold_snd]
      simp
    constructor
    · intro q hq
      rw [hloaded, List.mem_filter] at hq
      exact hA r.workspaceRoot q (List.mem_reverse.1 hq.1)
    · intro d hd nm hnm hav
      rw [hloaded, List.mem_filter]
      exact ⟨List.mem_reverse.2 (hC r.workspaceRoot d hd nm hnm hav), hav⟩

/-- Witness for C4 at a directory holding all four candidate names under the
`test` environment. -/
theorem claim_c4_test_exclusion_witness :
    ((["a", ".env.local"] : AbsPath) ∉ getNextJsEnvFiles fsC4 ["a"] ["a"] "test")
    ∧ ((["a", ".env.test.local"] : AbsPath) ∉ getNextJsEnvFiles fsC4 ["a"] ["a"] "test")
    ∧ (["a", ".env.test"] : AbsPath) ∈ getNextJsEnvFiles fsC4 ["a"] ["a"] "test"
    ∧ (basename ["a", ".env"] = ".env" ∨ basename ["a", ".env"] = ".env.test")
    ∧ (["a", ".env"] : AbsPath) ∈ rC4.filesLoaded
    ∧ (loadEnvTree fsC4 ["a"] true "test" []).1 = some rC4 := by
  have h := claim_c4_test_exclusion fsC4 ["a"] ["a"] true []
  refine ⟨(h.2.1 ["a"]).1, (h.2.1 ["a"]).2, ?_, ?_, ?_, by decide⟩
  · exact h.2.2.1 ["a"] (by decide) ".env.test" (Or.inr rfl) (by decide)
  · exact (h.2.2.2 rC4 (by decide)).1 ["a", ".env"] (by decide)
  · exact (h.2.2.2 rC4 (by decide)).2 ["a"] (by decide) ".env" (Or.inl rfl) (by decide)

/-- Claim C5 counterexample: a lock file at the filesystem root itself is
never tested — with the lock file only at the root, the lock-file ascent and
the whole locate return nothing, although the claim requires the root to be
found. -/
theorem claim_c5_counterexample :
    containsAnyOfFiles fsC5 [] LOCK_FILES = true
    ∧ findEnvFilesUsingLockFiles fsC5 ["a"] = none
    ∧ findEnvFiles fsC5 ["a"] = none := by
  refine ⟨by decide, by decide, by decide⟩

/-- Claim C5 (amended): the lock-file ascent tests exactly the directories
on the path from the start directory up to but excluding the filesystem
root; it returns the nearest strictly-below-root directory holding a lock
file, with the lock-file method, and yields nothing exactly when no such
directory holds a lock file. -/
theorem claim_c5_amended (fs : FS) (s : AbsPath) :
    (findEnvFilesUsingLockFiles fs s = none ↔
      ∀ d : AbsPath, isLeadOf d s = true → d ≠ [] →
        containsAnyOfFiles fs d LOCK_FILES = false)
    ∧ (∀ r : EnvFileResult, findEnvFilesUsingLockFiles fs s = some r →
        findEnvFiles fs s = some r ∧ r.method = Method.lockfile ∧
        isLeadOf r.workspaceRoot s = true ∧ r.workspaceRoot ≠ [] ∧
        containsAnyOfFiles fs r.workspaceRoot LOCK_FILES = true ∧
        ∀ d : AbsPath, isLeadOf d s = true → r.workspaceRoot.length < d.length →
          containsAnyOfFiles fs d LOCK_FILES = false) := by
  refine ⟨lockAscent_none_iff fs s, ?_⟩
  intro r h
  exact ⟨findEnvFiles_of_lock fs s r h, lockAscent_some fs s r h⟩

/-- Witness for the amended C5: a lock file strictly below the filesystem
root is found with the lock-file method. -/
theorem claim_c5_amended_witness :
    findEnvFiles fsC5b ["a"] = some ⟨[], ["a"], Method.lockfile⟩
    ∧ containsAnyOfFiles fsC5b ["a"] LOCK_FILES = true := by
  have h := (claim_c5_amended fsC5b ["a"]).2 ⟨[], ["a"], Method.lockfile⟩ (by decide)
  exact ⟨h.1, h.2.2.2.2.1⟩

/-- Claim C6 (code bug evaluation): at `fsC6` the editor config exists and
its parsed content declares folder entries, yet the validity test rejects it
— the switch compares the basename `settings.json` against the full
two-segment indicator string, so the folder-entry branch is unreachable —
and locate finds nothing. -/
theorem claim_c6_vscode_dead :
    (lookupFile fsC6 ["a", ".vscode", "settings.json"]).map
        (fun fd => fd.json.map (fun j => j.folders)) = some (some true)
    ∧ isValidWorkspaceConfig fsC6 ["a", ".vscode", "settings.json"] = false
    ∧ containsValidWorkspaceIndicators fsC6 ["a"] = false
    ∧ findEnvFiles fsC6 ["a"] = none
    ∧ basename (pathJoin ["a"] ".vscode/settings.json") = "settings.json"
    ∧ ALL_WORKSPACE_FILES.contains "settings.json" = false := by
  refine ⟨by decide, by decide, by decide, by decide, by decide, by decide⟩

/-- Claim C7 (spec-modelled loader): with a key filter configured, the
returned mapping holds exactly the merged keys matching the configured
leading string, and only such keys can be written into the environment;
with no filter configured everything is kept and the loader coincides with
`loadEnvTree`. -/
theorem claim_c7_key_filter (fs : FS) (s : AbsPath) (b : Bool) (e : String)
    (lead : String) (env : Env) :
    (loadEnvTreeFiltered fs s b e none env = loadEnvTree fs s b e env)
    ∧ (∀ r2 r : EnvTreeResult,
        (loadEnvTreeFiltered fs s b e (some lead) env).1 = some r2 →
        (loadEnvTree fs s b e env).1 = some r →
        ∀ k : String, getKey r2.envVars k =
          if strBegins k lead = true then getKey r.envVars k else none)
    ∧ (∀ k : String, getKey env k = none → strBegins k lead = false →
        getKey (loadEnvTreeFiltered fs s b e (some lead) env).2 k = none) := by
  cases hf : findEnvFiles fs s with
  | none =>
    refine ⟨by simp [loadEnvTreeFiltered, loadEnvTree, hf], ?_, ?_⟩
    · intro r2 r h2 h
      simp [loadEnvTreeFiltered, hf] at h2
    · intro k hk _
      simpa [loadEnvTreeFiltered, hf] using hk
  | some res =>
    have hpairF : loadEnvTreeFiltered fs s b e (some lead) env =
        (some ⟨((mergeFiles fs
              ((getNextJsEnvFiles fs res.workspaceRoot s e).reverse)).1).filter
                (fun kv => strBegins kv.1 lead),
              (mergeFiles fs ((getNextJsEnvFiles fs res.workspaceRoot s e).reverse)).2,
              res.workspaceRoot, res.method⟩,
         if b then
           applyEnv (((mergeFiles fs
              ((getNextJsEnvFiles fs res.workspaceRoot s e).reverse)).1).filter
                (fun kv => strBegins kv.1 lead)) env
         else env) := by
      simp [loadEnvTreeFiltered, hf]
    have hpairL : loadEnvTree fs s b e env =
        (some ⟨(mergeFiles fs ((getNextJsEnvFiles fs res.workspaceRoot s e).reverse)).1,
               (mergeFiles fs ((getNextJsEnvFiles fs res.workspaceRoot s e).reverse)).2,
               res.workspaceRoot, res.method⟩,
         if b then
           applyEnv
             (mergeFiles fs ((getNextJsEnvFiles fs res.workspaceRoot s e).reverse)).1 env
         else env) := by
      simp [loadEnvTree, hf]
    refine ⟨by simp [loadEnvTreeFiltered, loadEnvTree, hf], ?_, ?_⟩
    · intro r2 r h2 h k
      rw [hpairF] at h2
      rw [hpairL] at h
      simp only [Option.some.injEq] at h2 h
      subst h2
      subst h
      exact getKey_filter lead _ k
    · intro k hk hlead
      rw [hpairF]
      cases b with
      | false => simpa using hk
      | true =>
        simp only [if_true]
        rw [applyEnv_new _ env k hk, getKey_filter, hlead]
        simp

/-- Witness for C7: filtering on the public leading string keeps the
matching merged key and drops the non-matching one, both in the result and
in the environment writes. -/
theorem claim_c7_key_filter_witness :
    (loadEnvTreeFiltered fsC7 ["w"] true "development" none [] =
        loadEnvTree fsC7 ["w"] true "development" [])
    ∧ getKey (EnvTreeResult.envVars
        ⟨[("NEXT_PUBLIC_X", "1")], [["w", ".env"]], ["w"], Method.lockfile⟩) "SECRET"
        = none
    ∧ getKey (EnvTreeResult.envVars
        ⟨[("NEXT_PUBLIC_X", "1")], [["w", ".env"]], ["w"], Method.lockfile⟩)
        "NEXT_PUBLIC_X" = some "1"
    ∧ getKey
        (loadEnvTreeFiltered fsC7 ["w"] true "development" (some "NEXT_PUBLIC_") []).2
        "SECRET" = none := by
  have h := claim_c7_key_filter fsC7 ["w"] true "development" "NEXT_PUBLIC_" []
  refine ⟨h.1, ?_, ?_, ?_⟩
  · exact (h.2.1
      ⟨[("NEXT_PUBLIC_X", "1")], [["w", ".env"]], ["w"], Method.lockfile⟩
      ⟨[("NEXT_PUBLIC_X", "1"), ("SECRET", "2")], [["w", ".env"]], ["w"],
        Method.lockfile⟩
      (by decide) (by decide) "SECRET").trans (by decide)
  · exact (h.2.1
      ⟨[("NEXT_PUBLIC_X", "1")], [["w", ".env"]], ["w"], Method.lockfile⟩
      ⟨[("NEXT_PUBLIC_X", "1"), ("SECRET", "2")], [["w", ".env"]], ["w"],
        Method.lockfile⟩
      (by decide) (by decide) "NEXT_PUBLIC_X").trans (by decide)
  · exact h.2.2 "SECRET" (by decide) (by decide)

/-- Claim C8: a failing read or parse of one candidate file is non-fatal —
the warning branch is taken, that file contributes no keys while all other
files merge normally, the load still returns a result, and `filesLoaded`
records every file found on disk, in applied order, regardless of parse
success. -/
theorem claim_c8_parse_failure (fs : FS) (s : AbsPath) (b : Bool) (e : String)
    (env : Env) :
    (∀ (q : AbsPath) (fd : FileData), lookupFile fs q = some fd → fd.dotenv = none →
        parseEnvFile fs q = [] ∧ parseEnvFileWarns fs q = true)
    ∧ ((findEnvFiles fs s).isSome = true → ((loadEnvTree fs s b e env).1).isSome = true)
    ∧ (∀ (l1 l2 : List AbsPath) (f : AbsPath), parseEnvFile fs f = [] →
        (mergeFiles fs (l1 ++ f :: l2)).1 = (mergeFiles fs (l1 ++ l2)).1)
    ∧ (∀ files : List AbsPath, (mergeFiles fs files).2 =
        files.filter (fun q => isPathAvailable fs q)) := by
  refine ⟨?_, ?_, ?_, ?_⟩
  · intro q fd h hd
    unfold parseEnvFile parseEnvFileWarns
    rw [h]
    simp [hd]
  · intro h
    cases hf : findEnvFiles fs s with
    | none => rw [hf] at h; simp at h
    | some res => simp [loadEnvTree, hf]
  · intro l1 l2 f hp
    unfold mergeFiles
    rw [List.foldl_append, List.foldl_cons, List.foldl_append]
    by_cases ha : isPathAvailable fs f
    · have hstep : mergeStep fs (l1.foldl (mergeStep fs) ([], [])) f =
          ((l1.foldl (mergeStep fs) ([], [])).1,
           (l1.foldl (mergeStep fs) ([], [])).2 ++ [f]) := by
        unfold mergeStep
        rw [if_pos ha, hp]
        rfl
      rw [hstep]
      exact mergeFold_fst_indep fs l2 _ _ _
    · have hstep : mergeStep fs (l1.foldl (mergeStep fs) ([], [])) f =
          l1.foldl (mergeStep fs) ([], []) := by
        unfold mergeStep
        rw [if_neg ha]
      rw [hstep]
  · intro files
    unfold mergeFiles
    rw [mergeFold_snd]
    simp

/-- Witness for C8: with the leaf `.env` unparseable, the merge equals the
merge without it, it still appears in `filesLoaded` in applied position, and
the load succeeds. -/
theorem claim_c8_parse_failure_witness :
    (parseEnvFile fsC8 ["w", "pkg", ".env"] = []
      ∧ parseEnvFileWarns fsC8 ["w", "pkg", ".env"] = true)
    ∧ (mergeFiles fsC8 ([["w", ".env"]] ++ ["w", "pkg", ".env"] :: [])).1 =
        (mergeFiles fsC8 ([["w", ".env"]] ++ [])).1
    ∧ (mergeFiles fsC8 [["w", ".env"], ["w", "pkg", ".env"]]).2 =
        [["w", ".env"], ["w", "pkg", ".env"]].filter (fun q => isPathAvailable fsC8 q)
    ∧ ((loadEnvTree fsC8 ["w", "pkg"] true "development" []).1).isSome = true
    ∧ (loadEnvTree fsC8 ["w", "pkg"] true "development" []).1 =
        some ⟨[("A", "1")], [["w", ".env"], ["w", "pkg", ".env"]], ["w"],
          Method.lockfile⟩ := by
  have h := claim_c8_parse_failure fsC8 ["w", "pkg"] true "development" []
  refine ⟨h.1 ["w", "pkg", ".env"] plainFile (by decide) (by decide), ?_, ?_, ?_, by decide⟩
  · exact h.2.2.1 [["w", ".env"]] [] ["w", "pkg", ".env"] (by decide)
  · exact h.2.2.2 [["w", ".env"], ["w", "pkg", ".env"]]
  · exact h.2.1 (by decide)

/-- Claim C9: a content-validated indicator (rust manifest, deno config,
editor config) or package manifest whose content is unreadable or whose
parse throws never qualifies a directory, and a non-qualifying directory
makes the indicator ascent continue to the parent instead of aborting. -/
theorem claim_c9_malformed_indicators (fs : FS) :
    (∀ (q : AbsPath) (fd : FileData), basename q = "cargo.toml" →
        lookupFile fs q = some fd → fd.cargo = none →
        isValidWorkspaceConfig fs q = false)
    ∧ (∀ (q : AbsPath) (fd : FileData),
        (basename q = "deno.json" ∨ basename q = "deno.jsonc") →
        lookupFile fs q = some fd → fd.json = none →
        isValidWorkspaceConfig fs q = false)
    ∧ (∀ (q : AbsPath) (fd : FileData), basename q = "settings.json" →
        lookupFile fs q = some fd → fd.json = none →
        isValidWorkspaceConfig fs q = false)
    ∧ (∀ (q : AbsPath) (fd : FileData), lookupFile fs q = some fd →
        fd.json = none → isWorkspacePackageJson fs q = false)
    ∧ (∀ (n : Nat) (acc : List AbsPath) (p : AbsPath), p ≠ [] →
        containsValidWorkspaceIndicators fs p = false →
        (isPathAvailable fs (pathJoin p "package.json") &&
          isWorkspacePackageJson fs (pathJoin p "package.json")) = false →
        findIndGo fs (n + 1) acc p =
          findIndGo fs n (acc ++ getEnvFilesInDirectory fs p) p.dropLast) := by
  refine ⟨?_, ?_, ?_, ?_, ?_⟩
  · intro q fd hb h hc
    unfold isValidWorkspaceConfig
    simp [hb, h, hc]
  · intro q fd hb h hj
    unfold isValidWorkspaceConfig
    rcases hb with hb | hb <;> simp [hb, h, hj]
  · intro q fd hb h hj
    unfold isValidWorkspaceConfig
    simp only [hb]
    rw [if_neg (by decide), if_neg (by decide), if_neg (by decide)]
    decide
  · intro q fd h hj
    unfold isWorkspacePackageJson
    simp [h, hj]
  · intro n acc p hp hci hpkg
    conv =>
      lhs
      rw [findIndGo]
    rw [if_neg (by simp [hp]), if_neg (by simp [hci]), if_neg (by simp [hpkg])]

/-- Witness for C9: a deno config whose parse throws does not qualify its
directory, and the ascent steps to the parent. -/
theorem claim_c9_malformed_indicators_witness :
    isValidWorkspaceConfig fsC9 ["a", "deno.json"] = false
    ∧ findIndGo fsC9 1 [] ["a"] =
        findIndGo fsC9 0 ([] ++ getEnvFilesInDirectory fsC9 ["a"]) (["a"] : AbsPath).dropLast
    ∧ isWorkspacePackageJson fsC9 ["a", "deno.json"] = false
    ∧ findEnvFiles fsC9 ["a"] = none := by
  have h := claim_c9_malformed_indicators fsC9
  refine ⟨?_, ?_, ?_, by decide⟩
  · exact h.2.1 ["a", "deno.json"] plainFile (Or.inl (by decide)) (by decide) (by decide)
  · exact h.2.2.2.2 0 [] ["a"] (by decide) (by decide) (by decide)
  · exact h.2.2.2.1 ["a", "deno.json"] plainFile (by decide) (by decide)

/-- Claim C10: the environment-mutation switch affects only the mutation
step — the returned result is identical for any switch value and any ambient
environment (so ambient values never flow into the returned mapping), and
with the switch off the environment is returned untouched. -/
theorem claim_c10_setenv_frame (fs : FS) (s : AbsPath) (e : String)
    (env env2 : Env) (b b2 : Bool) :
    (loadEnvTree fs s b e env).1 = (loadEnvTree fs s b2 e env2).1
    ∧ (loadEnvTree fs s false e env).2 = env := by
  cases hf : findEnvFiles fs s with
  | none => constructor <;> simp [loadEnvTree, hf]
  | some res => constructor <;> simp [loadEnvTree, hf]
